import Mathlib

/-!
Verification of the edgemax telemetry client: frame codec (wsMarshal /
wsUnmarshal), the three stat decoders (SystemStats, Interfaces, DPIStats)
and the IP ordering used to sort DPI records.  Go code is embedded
shallowly: byte slices become character lists, machine integers become
Int with explicit 64-bit wrapping where overflow matters, fallible code
returns Option / Except, and the string-keyed intermediate maps produced
by encoding/json are represented by association lists in iteration order
(Go map iteration order is unspecified, so it is an explicit input here).
-/

namespace Edgemax

instance {ε α : Type} [DecidableEq ε] [DecidableEq α] : DecidableEq (Except ε α) := fun
  | .error e, .error f =>
    match decEq e f with
    | isTrue h => isTrue (by rw [h])
    | isFalse h => isFalse (fun hh => h (Except.error.inj hh))
  | .error _, .ok _ => isFalse (fun h => Except.noConfusion h)
  | .ok _, .error _ => isFalse (fun h => Except.noConfusion h)
  | .ok a, .ok b =>
    match decEq a b with
    | isTrue h => isTrue (by rw [h])
    | isFalse h => isFalse (fun hh => h (Except.ok.inj hh))

/-- Go bytes.SplitN(data, sep, 2): locate the first separator, returning
the parts before and after it, or none when the separator is absent. -/
def splitFirst (sep : Char) : List Char → Option (List Char × List Char)
  | [] => none
  | c :: cs =>
    if c = sep then some ([], cs)
    else (splitFirst sep cs).map (fun p => (c :: p.1, p.2))

/-- Go bytes.SplitN(data, sep, 2) / strings.SplitN: one element when the
separator is absent, otherwise exactly two. -/
def splitN2 (sep : Char) (l : List Char) : List (List Char) :=
  match splitFirst sep l with
  | none => [l]
  | some (a, b) => [a, b]

/-- strings.SplitN(s, sep, 2) on strings. -/
def splitN2Str (sep : Char) (s : String) : List String :=
  (splitN2 sep s.toList).map List.asString

def digitsToNat (l : List Char) : Nat :=
  l.foldl (fun a c => a * 10 + (c.toNat - 48)) 0

/-- strconv.Atoi / strconv.ParseInt(s, 10, 64): optional single sign,
then one or more decimal digits, no other characters, result within
the 64-bit signed range (out-of-range input is an error). -/
def goAtoi (s : String) : Option Int :=
  let core : Bool → List Char → Option Int := fun neg ds =>
    if ds = [] then none
    else if ds.all Char.isDigit then
      let n : Nat := digitsToNat ds
      if neg then
        if n ≤ 2 ^ 63 then some (-(n : Int)) else none
      else
        if n ≤ 2 ^ 63 - 1 then some (n : Int) else none
    else none
  match s.toList with
  | '+' :: ds => core false ds
  | '-' :: ds => core true ds
  | ds => core false ds

/-- strconv.Itoa for a non-negative count: decimal digit characters. -/
def itoa (n : Nat) : List Char :=
  if n < 10 then [Nat.digitChar n]
  else itoa (n / 10) ++ [Nat.digitChar (n % 10)]
  decreasing_by exact Nat.div_lt_self (by omega) (by omega)

/-- Byte length of a character list rendered as UTF-8 (Go len on a
string or byte slice holding UTF-8 text). -/
def utf8Len (l : List Char) : Nat :=
  (l.map Char.utf8Size).sum

/-- Go's `<` on strings: byte-wise lexicographic comparison, which on
valid UTF-8 text coincides with lexicographic comparison of code
points (UTF-8 is order-preserving). -/
def listCharLt : List Char → List Char → Bool
  | [], [] => false
  | [], _ :: _ => true
  | _ :: _, [] => false
  | x :: xs, y :: ys =>
    if x.toNat < y.toNat then true
    else if y.toNat < x.toNat then false
    else listCharLt xs ys

def goStringLt (a b : String) : Bool :=
  listCharLt a.toList b.toList

/-! ## net.ParseIP -/

def isHexChar (c : Char) : Bool :=
  c.isDigit || ('a' ≤ c && c ≤ 'f') || ('A' ≤ c && c ≤ 'F')

def hexVal (c : Char) : Nat :=
  if c.isDigit then c.toNat - 48
  else if 'a' ≤ c && c ≤ 'f' then c.toNat - 87
  else c.toNat - 55

def hexToNat (l : List Char) : Nat :=
  l.foldl (fun a c => a * 16 + hexVal c) 0

/-- One dotted-decimal IPv4 field: 1-3 decimal digits, value at most
255, no leading zero (net's parser rejects them). -/
def parseV4Field (cs : List Char) : Option Nat :=
  if cs = [] then none
  else if ¬ cs.all Char.isDigit then none
  else if cs.length > 3 then none
  else if cs.length > 1 ∧ cs.headD ' ' = '0' then none
  else
    let n := digitsToNat cs
    if n ≤ 255 then some n else none

/-- Dotted-decimal IPv4 parsing: exactly four fields.  Returns the four
address bytes. -/
def parseIPv4 (s : List Char) : Option (List Nat) :=
  match (s.splitOn '.').mapM parseV4Field with
  | some [a, b, c, d] => some [a, b, c, d]
  | _ => none

/-- The 16-byte IPv4-in-IPv6 form net.IP uses for parsed v4 addresses. -/
def v4InV6 (quad : List Nat) : List Nat :=
  [0, 0, 0, 0, 0, 0, 0, 0, 0, 0, 255, 255] ++ quad

/-- Main loop of the IPv6 parser: consume colon-separated hex fields
(at most 4 digits each), a possible single `::` marker whose position is
recorded, and a possible trailing dotted IPv4 quad.  Returns the bytes
accumulated so far together with the `::` position.  Fuel bounds the
number of fields (at most eight fit in 16 bytes). -/
def v6Loop : Nat → List Char → List Nat → Option Nat → Option (List Nat × Option Nat)
  | 0, _, _, _ => none
  | fuel + 1, s, bytes, ell =>
    if bytes.length ≥ 16 then
      if s = [] then some (bytes, ell) else none
    else
      let digs := s.takeWhile isHexChar
      if digs.length = 0 ∨ digs.length > 4 then none
      else
        let rest := s.drop digs.length
        match rest with
        | '.' :: _ =>
          -- trailing IPv4: without an ellipsis it must start at byte 12
          if (ell.isNone ∧ bytes.length ≠ 12) ∨ bytes.length + 4 > 16 then none
          else
            match parseIPv4 s with
            | some quad => some (bytes ++ quad, ell)
            | none => none
        | _ =>
          let n := hexToNat digs
          let bytes := bytes ++ [n / 256, n % 256]
          match rest with
          | [] => some (bytes, ell)
          | [':'] => none
          | ':' :: ':' :: rest2 =>
            if ell.isSome then none
            else if rest2 = [] then some (bytes, some bytes.length)
            else v6Loop fuel rest2 bytes (some bytes.length)
          | ':' :: rest2 => v6Loop fuel rest2 bytes ell
          | _ => none

/-- Expand the `::` marker to fill the address to 16 bytes; reject when
there is nothing to expand or no marker and fewer than 16 bytes. -/
def v6Finish (bytes : List Nat) (ell : Option Nat) : Option (List Nat) :=
  if bytes.length < 16 then
    match ell with
    | none => none
    | some e => some (bytes.take e ++ List.replicate (16 - bytes.length) 0 ++ bytes.drop e)
  else
    match ell with
    | none => some bytes
    | some _ => none

def parseIPv6 (s : List Char) : Option (List Nat) :=
  match s with
  | ':' :: ':' :: rest =>
    if rest = [] then some (List.replicate 16 0)
    else
      match v6Loop 10 rest [] (some 0) with
      | some (bytes, ell) => v6Finish bytes ell
      | none => none
  | _ =>
    match v6Loop 10 s [] none with
    | some (bytes, ell) => v6Finish bytes ell
    | none => none

/-- net.ParseIP dispatches on the first `.` or `:` encountered. -/
def firstDotOrColon : List Char → Option Char
  | [] => none
  | c :: cs => if c = '.' ∨ c = ':' then some c else firstDotOrColon cs

/-- net.ParseIP: a parsed IPv4 address is stored in the 16-byte
IPv4-in-IPv6 form, an IPv6 address as its 16 bytes.  none models the
nil return. -/
def parseIP (s : String) : Option (List Nat) :=
  match firstDotOrColon s.toList with
  | some '.' => (parseIPv4 s.toList).map v4InV6
  | some ':' => parseIPv6 s.toList
  | _ => none

/-! ## ipLess and the DPI sort comparator -/

/-- net.IP.To4: a 4-byte address is returned as is; a 16-byte address in
IPv4-in-IPv6 form is shortened to its last four bytes; anything else
(including nil) yields nothing. -/
def ipTo4 (ip : List Nat) : Option (List Nat) :=
  if ip.length = 4 then some ip
  else if ip.length = 16 ∧ ip.take 12 = [0, 0, 0, 0, 0, 0, 0, 0, 0, 0, 255, 255] then
    some (ip.drop 12)
  else none

/-- The byte loop of ipLess, exactly as written in the source: it scans
all of a's indices and returns true as soon as some byte of a is smaller
than b's byte at the same index; larger bytes do NOT stop the scan.
Indexing b out of range is a Go panic, modelled as none. -/
def ipBytesLt : List Nat → List Nat → Option Bool
  | [], _ => some false
  | _ :: _, [] => none
  | x :: xs, y :: ys => if x < y then some true else ipBytesLt xs ys

/-- ipLess from the source: normalize both sides with To4, put
IPv4-length addresses before IPv6-length ones, then run the byte loop
(the nil/nil case falls through to the loop, which returns false). -/
def ipLess (a b : List Nat) : Option Bool :=
  let a := (ipTo4 a).getD a
  let b := (ipTo4 b).getD b
  if a.length = 4 ∧ b.length = 16 then some true
  else if a.length = 16 ∧ b.length = 4 then some false
  else ipBytesLt a b

/-! ## sort.Sort

Go's sort.Sort runs a plain insertion sort on slices shorter than
twelve elements (shorter than seven in older releases, where a gap-6
Shell pass precedes it but moves nothing below seven elements): the new
element is appended and swapped leftwards while Less(it, left neighbour)
holds.  insGo inserts into the reversed already-sorted prefix, so the
bubbling scan is the takeWhile from the right end.  For longer slices
sort.Sort switches algorithms but still returns a sorted permutation
whenever Less is a strict weak order; the claims that exercise a broken
comparator are settled on slices short enough that this model is the
exact algorithm. -/
def insGo (less : α → α → Bool) (racc : List α) (x : α) : List α :=
  racc.takeWhile (fun z => less x z) ++ x :: racc.dropWhile (fun z => less x z)

def sortGo (less : α → α → Bool) (l : List α) : List α :=
  (l.foldl (insGo less) []).reverse

/-! ## Errors

Each constructor carries exactly the data the Go error message
interpolates, so "an error naming X" is the constructor holding X. -/

inductive GoErr where
  /-- strconv.NumError from strconv.Atoi, naming the offending string. -/
  | numError (s : String)
  /-- fmt.Errorf("invalid stat type: %q", statType). -/
  | statType (s : String)
  /-- net.ParseMAC failure, naming the input. -/
  | macError (s : String)
  /-- net.ParseCIDR failure, naming the input. -/
  | cidrError (s : String)
  /-- fmt.Errorf("incorrect number of elements in websocket message: %d", l). -/
  | countError (n : Nat)
  /-- encoding/json unmarshal failure. -/
  | jsonError
  deriving DecidableEq

/-- The message rendered by each error (%q quoting written plainly). -/
def GoErr.message : GoErr → String
  | .numError s => "strconv.Atoi: parsing " ++ s ++ ": invalid syntax"
  | .statType s => "invalid stat type: " ++ s
  | .macError s => "invalid MAC address: " ++ s
  | .cidrError s => "invalid CIDR address: " ++ s
  | .countError n => "incorrect number of elements in websocket message: " ++ toString n
  | .jsonError => "json unmarshal error"

def atoiE (s : String) : Except GoErr Int :=
  match goAtoi s with
  | some n => .ok n
  | none => .error (.numError s)

/-! ## SystemStats -/

/-- The intermediate string-typed shape SystemStats.UnmarshalJSON
decodes into (absent JSON fields leave the zero value ""). -/
structure SysRaw where
  cpu : String
  uptime : String
  mem : String
  deriving DecidableEq

/-- Two's-complement wrap of an int64 expression (Go multiplication
overflows silently). -/
def i64wrap (n : Int) : Int :=
  (n + 2 ^ 63) % 2 ^ 64 - 2 ^ 63

structure SystemStats where
  cpu : Int
  /-- time.Duration: nanoseconds; uptime seconds times time.Second. -/
  uptime : Int
  memory : Int
  deriving DecidableEq

/-- SystemStats.UnmarshalJSON after the JSON layer: strict integer
conversion of the three string fields, in source order; the destination
is assigned only when every conversion succeeds. -/
def systemStatsUnmarshal (v : SysRaw) : Except GoErr SystemStats := do
  let cpu ← atoiE v.cpu
  let uptime ← atoiE v.uptime
  let memory ← atoiE v.mem
  .ok { cpu := cpu, uptime := i64wrap (uptime * 1000000000), memory := memory }

/-! ## Interfaces -/

structure IfaceStatsRaw where
  rxPackets : String := ""
  txPackets : String := ""
  rxBytes : String := ""
  txBytes : String := ""
  rxErrors : String := ""
  txErrors : String := ""
  rxDropped : String := ""
  txDropped : String := ""
  multicast : String := ""
  rxBPS : String := ""
  txBPS : String := ""
  deriving DecidableEq

/-- The `addresses` field arrives as interface{}: a JSON array of
strings, a single string, or anything else (absent / null / other
kinds), which the decoder's switch ignores. -/
inductive AddrField where
  | nullv
  | strv (s : String)
  | arrv (l : List String)
  deriving DecidableEq

structure IfaceRaw where
  up : String := ""
  autoneg : String := ""
  duplex : String := ""
  speed : String := ""
  mac : String := ""
  mtu : String := ""
  addresses : AddrField := .nullv
  stats : IfaceStatsRaw := {}
  deriving DecidableEq

structure InterfaceStats where
  receivePackets : Int
  transmitPackets : Int
  receiveBytes : Int
  transmitBytes : Int
  receiveErrors : Int
  transmitErrors : Int
  receiveDropped : Int
  transmitDropped : Int
  multicast : Int
  receiveBPS : Int
  transmitBPS : Int
  deriving DecidableEq

structure Interface where
  name : String
  up : Bool
  autonegotiation : Bool
  duplex : String
  speed : Int
  mac : Option (List Nat)
  mtu : Int
  addresses : List (List Nat)
  stats : InterfaceStats
  deriving DecidableEq

/-- The thirteen numeric strings of one interface record, in the exact
order the source collects them into its ss slice. -/
def ifaceNumStrings (r : IfaceRaw) : List String :=
  [r.speed, r.mtu,
   r.stats.rxPackets, r.stats.txPackets, r.stats.rxBytes, r.stats.txBytes,
   r.stats.rxErrors, r.stats.txErrors, r.stats.rxDropped, r.stats.txDropped,
   r.stats.multicast, r.stats.rxBPS, r.stats.txBPS]

/-- One element of the numeric loop: empty string defaults to 0,
anything else goes through strconv.Atoi. -/
def parseNumField (s : String) : Except GoErr Int :=
  if s = "" then .ok 0 else atoiE s

/-- net.ParseMAC, colon/dash groups of two hex digits or dot groups of
four, for 6-, 8- or 20-byte addresses. -/
def macGroups2 (sep : Char) : List Char → Option (List Nat)
  | [a, b] =>
    if isHexChar a ∧ isHexChar b then some [hexVal a * 16 + hexVal b] else none
  | a :: b :: s :: rest =>
    if isHexChar a ∧ isHexChar b ∧ s = sep then
      (macGroups2 sep rest).map (fun tl => (hexVal a * 16 + hexVal b) :: tl)
    else none
  | _ => none

def macGroups4 : List Char → Option (List Nat)
  | [a, b, c, d] =>
    if isHexChar a ∧ isHexChar b ∧ isHexChar c ∧ isHexChar d then
      some [hexVal a * 16 + hexVal b, hexVal c * 16 + hexVal d]
    else none
  | a :: b :: c :: d :: s :: rest =>
    if isHexChar a ∧ isHexChar b ∧ isHexChar c ∧ isHexChar d ∧ s = '.' then
      (macGroups4 rest).map
        (fun tl => (hexVal a * 16 + hexVal b) :: (hexVal c * 16 + hexVal d) :: tl)
    else none
  | _ => none

def parseMAC (s : String) : Option (List Nat) :=
  let cs := s.toList
  if cs.length < 14 then none
  else if cs.getD 2 ' ' = ':' ∨ cs.getD 2 ' ' = '-' then
    if (cs.length + 1) % 3 ≠ 0 then none
    else
      let n := (cs.length + 1) / 3
      if n ≠ 6 ∧ n ≠ 8 ∧ n ≠ 20 then none
      else macGroups2 (cs.getD 2 ' ') cs
  else if cs.getD 4 ' ' = '.' then
    if (cs.length + 1) % 5 ≠ 0 then none
    else
      let n := 2 * ((cs.length + 1) / 5)
      if n ≠ 6 ∧ n ≠ 8 ∧ n ≠ 20 then none
      else macGroups4 cs
  else none

/-- Decimal prefix length of a CIDR mask: 1-3 digits, no leading zero. -/
def parseDecMask (cs : List Char) : Option Nat :=
  if cs = [] then none
  else if ¬ cs.all Char.isDigit then none
  else if cs.length > 3 then none
  else if cs.length > 1 ∧ cs.headD ' ' = '0' then none
  else some (digitsToNat cs)

/-- net.ParseCIDR, keeping only the address part (the decoder discards
the prefix length): split at the first '/', parse the address as an IP
and the mask as a decimal within the family's bit width. -/
def parseCIDR (s : String) : Option (List Nat) :=
  match splitFirst '/' s.toList with
  | none => none
  | some (addr, maskCs) =>
    match parseIP addr.asString with
    | none => none
    | some ip =>
      match parseDecMask maskCs with
      | none => none
      | some m =>
        if m ≤ (if firstDotOrColon addr = some '.' then 32 else 128) then some ip
        else none

/-- The MAC step: empty string leaves the MAC absent, otherwise parse
or fail the whole record. -/
def parseMACField (s : String) : Except GoErr (Option (List Nat)) :=
  if s = "" then .ok none
  else
    match parseMAC s with
    | some m => .ok (some m)
    | none => .error (.macError s)

/-- The addresses switch: a slice parses every element as CIDR, a
non-empty string parses once, everything else yields no addresses. -/
def parseAddrs : AddrField → Except GoErr (List (List Nat))
  | .nullv => .ok []
  | .arrv l =>
    l.mapM (fun s =>
      match parseCIDR s with
      | some ip => .ok ip
      | none => .error (.cidrError s))
  | .strv s =>
    if s = "" then .ok []
    else
      match parseCIDR s with
      | some ip => .ok [ip]
      | none => .error (.cidrError s)

/-- Building one Interface record as the loop body does: all thirteen
numeric strings first (ints has exactly one element per field, indexed
0..12 below as the source indexes its ints slice), then the MAC, then
the addresses, then the booleans by literal comparison with "true". -/
def buildInterface (k : String) (r : IfaceRaw) : Except GoErr Interface := do
  let ints ← (ifaceNumStrings r).mapM parseNumField
  let mac ← parseMACField r.mac
  let ips ← parseAddrs r.addresses
  .ok { name := k
        up := r.up == "true"
        autonegotiation := r.autoneg == "true"
        duplex := r.duplex
        speed := ints.getD 0 0
        mac := mac
        mtu := ints.getD 1 0
        addresses := ips
        stats := { receivePackets := ints.getD 2 0, transmitPackets := ints.getD 3 0
                   receiveBytes := ints.getD 4 0, transmitBytes := ints.getD 5 0
                   receiveErrors := ints.getD 6 0, transmitErrors := ints.getD 7 0
                   receiveDropped := ints.getD 8 0, transmitDropped := ints.getD 9 0
                   multicast := ints.getD 10 0, receiveBPS := ints.getD 11 0
                   transmitBPS := ints.getD 12 0 } }

/-- byInterfaceName.Less. -/
def byInterfaceNameLess (a b : Interface) : Bool :=
  goStringLt a.name b.name

/-- Interfaces.UnmarshalJSON after the JSON layer: the intermediate
map's entries in iteration order, each built into a record, then sorted
by name; the destination is assigned only on full success. -/
def interfacesUnmarshal (entries : List (String × IfaceRaw)) :
    Except GoErr (List Interface) := do
  let is ← entries.mapM (fun e => buildInterface e.1 e.2)
  .ok (sortGo byInterfaceNameLess is)

/-! ## DPIStats -/

structure DPIRaw where
  rxBytes : String := ""
  rxRate : String := ""
  txBytes : String := ""
  txRate : String := ""
  deriving DecidableEq

structure DPIStat where
  ip : List Nat
  type : String
  category : String
  receiveBytes : Int
  receiveRate : Int
  transmitBytes : Int
  transmitRate : Int
  deriving DecidableEq

/-- byIPAndType.Less exactly as written: when ipLess holds return true,
otherwise fall through to the Type comparison even when the IPs differ.
Parsed IPs are always 16 bytes, so the ipLess panic branch cannot fire
here and the none case is unreachable. -/
def byIPAndTypeLess (a b : DPIStat) : Bool :=
  match ipLess a.ip b.ip with
  | some true => true
  | _ => goStringLt a.type b.type

/-- One inner DPI entry: split the composite key on the first '|'
(error unless the split yields two parts, naming the key), then the
four strict integer conversions in source order. -/
def dpiInner (ip : List Nat) (kv : String × DPIRaw) : Except GoErr DPIStat :=
  match splitN2Str '|' kv.1 with
  | [t, c] => do
    let rxBytes ← atoiE kv.2.rxBytes
    let rxRate ← atoiE kv.2.rxRate
    let txBytes ← atoiE kv.2.txBytes
    let txRate ← atoiE kv.2.txRate
    .ok { ip := ip, type := t, category := c
          receiveBytes := rxBytes, receiveRate := rxRate
          transmitBytes := txBytes, transmitRate := txRate }
  | _ => .error (.statType kv.1)

/-- One outer DPI entry: a key net.ParseIP rejects is skipped with all
its inner entries; otherwise every inner entry is decoded and appended. -/
def dpiStep (acc : List DPIStat) (e : String × List (String × DPIRaw)) :
    Except GoErr (List DPIStat) :=
  match parseIP e.1 with
  | none => .ok acc
  | some ip => do
    let stats ← e.2.mapM (dpiInner ip)
    .ok (acc ++ stats)

/-- DPIStats.UnmarshalJSON after the JSON layer: nested maps as nested
association lists in iteration order, flattened then sorted with
byIPAndType; the destination is assigned only on full success. -/
def dpiStatsUnmarshal (entries : List (String × List (String × DPIRaw))) :
    Except GoErr (List DPIStat) := do
  let out ← entries.foldlM dpiStep []
  .ok (sortGo byIPAndTypeLess out)

/-! ## The websocket frame codec and the subscription envelope

The JSON layer is modelled for strings that encoding/json emits
verbatim, i.e. strings needing no escape sequence; every value the
protocol sends (category names, hexadecimal session identifiers)
satisfies this, and the side condition marks exactly where the model is
byte-for-byte exact. -/

/-- wsRequest: Subscribe/Unsubscribe are nil-able slices of wsName
(none is Go nil, marshalled as JSON null), each wsName carrying one
category name. -/
structure WsRequest where
  subscribe : Option (List String)
  unsubscribe : Option (List String)
  sessionID : String
  deriving DecidableEq

/-- A character encoding/json writes unescaped inside a string literal:
not the quote or backslash, not a control character, not one of the
HTML-escaped &lt; &gt; &amp; nor U+2028/U+2029. -/
def PlainChar (c : Char) : Prop :=
  c ≠ '"' ∧ c ≠ '\\' ∧ 32 ≤ c.toNat ∧ c ≠ '<' ∧ c ≠ '>' ∧ c ≠ '&' ∧
    c.toNat ≠ 0x2028 ∧ c.toNat ≠ 0x2029

instance (c : Char) : Decidable (PlainChar c) := by
  unfold PlainChar; infer_instance

def PlainStr (s : String) : Prop := ∀ c ∈ s.toList, PlainChar c

def PlainNames : Option (List String) → Prop
  | none => True
  | some ns => ∀ n ∈ ns, PlainStr n

def PlainReq (r : WsRequest) : Prop :=
  PlainNames r.subscribe ∧ PlainNames r.unsubscribe ∧ PlainStr r.sessionID

instance (s : String) : Decidable (PlainStr s) := by
  unfold PlainStr; infer_instance

instance (o : Option (List String)) : Decidable (PlainNames o) := by
  cases o with
  | none => exact isTrue trivial
  | some l =>
    show Decidable (∀ n ∈ l, PlainStr n)
    infer_instance

instance (r : WsRequest) : Decidable (PlainReq r) := by
  unfold PlainReq; infer_instance

/-- json string literal for a plain string. -/
def encJStr (s : String) : List Char :=
  '"' :: s.toList ++ ['"']

/-- The literal opening of one marshalled wsName object. -/
def nameObjOpen : List Char := "\x7b\"name\":".toList

/-- json.Marshal of one wsName value. -/
def encName (n : String) : List Char :=
  nameObjOpen ++ encJStr n ++ ['\x7d']

/-- Comma-separated marshalled wsName values (non-empty lists). -/
def encNamesItems : List String → List Char
  | [] => []
  | [n] => encName n
  | n :: ns => encName n ++ ',' :: encNamesItems ns

/-- json.Marshal of a []wsName: nil becomes null, an empty slice
becomes an empty array. -/
def encNames : Option (List String) → List Char
  | none => "null".toList
  | some [] => "[]".toList
  | some ns => '[' :: (encNamesItems ns ++ [']'])

/-- json.Marshal of a wsRequest, fields in declaration order with their
struct tags SUBSCRIBE, UNSUBSCRIBE, SESSION_ID. -/
def encWsRequest (r : WsRequest) : List Char :=
  "\x7b\"SUBSCRIBE\":".toList ++ encNames r.subscribe ++
    ",\"UNSUBSCRIBE\":".toList ++ encNames r.unsubscribe ++
    ",\"SESSION_ID\":".toList ++ encJStr r.sessionID ++ ['\x7d']

/-- wsMarshal: the JSON body prefixed by its decimal byte length and a
newline; the second component is the payload-type byte, always 0. -/
def wsMarshal (r : WsRequest) : List Char × Nat :=
  let b := encWsRequest r
  (itoa (utf8Len b) ++ '\n' :: b, 0)

/-- wsUnmarshal up to (but not including) the final json.Unmarshal:
none models the panic on an empty buffer (data[0] is read
unconditionally); .ok none is success with the output untouched; .ok
(some body) hands body to json.Unmarshal. -/
def wsUnmarshalFrame (data : List Char) : Option (Except GoErr (Option (List Char))) :=
  match data with
  | [] => none
  | c :: _ =>
    some (
      if c = '\x7b' then .ok (some data)
      else
        let bb := splitN2 '\n' data
        if bb.length = 2 then
          let second := bb.getD 1 []
          if second = [] then .ok none else .ok (some second)
        else .error (.countError bb.length))

/-! ### The JSON layer for wsRequest, as json.Unmarshal reads the
canonical serialization back (recursive-descent over the struct's
grammar; trailing input is an error as in encoding/json). -/

/-- Expect a literal prefix, returning the remaining input. -/
def parseLit : List Char → List Char → Option (List Char)
  | [], input => some input
  | _ :: _, [] => none
  | c :: cs, d :: ds => if c = d then parseLit cs ds else none

/-- Characters of a string literal up to the closing quote (plain
strings carry no escape sequences). -/
def parseJStrAux : List Char → Option (List Char × List Char)
  | [] => none
  | c :: cs =>
    if c = '"' then some ([], cs)
    else (parseJStrAux cs).map (fun p => (c :: p.1, p.2))

def parseJStr : List Char → Option (String × List Char)
  | '"' :: rest => (parseJStrAux rest).map (fun p => (p.1.asString, p.2))
  | _ => none

/-- One marshalled wsName object. -/
def parseNameObj (l : List Char) : Option (String × List Char) :=
  match parseLit nameObjOpen l with
  | none => none
  | some r =>
    match parseJStr r with
    | none => none
    | some (s, r2) =>
      match r2 with
      | '\x7d' :: r3 => some (s, r3)
      | _ => none

/-- Array elements after the opening bracket of a non-empty array; the
fuel only bounds the number of elements (each consumes input). -/
def parseNamesAux : Nat → List Char → Option (List String × List Char)
  | 0, _ => none
  | fuel + 1, l =>
    match parseNameObj l with
    | none => none
    | some (n, rest) =>
      match rest with
      | ',' :: rest2 =>
        match parseNamesAux fuel rest2 with
        | some (ns, r) => some (n :: ns, r)
        | none => none
      | ']' :: rest2 => some ([n], rest2)
      | _ => none

/-- null, [] or a non-empty array of wsName objects. -/
def parseNames (l : List Char) : Option (Option (List String) × List Char) :=
  match l with
  | 'n' :: 'u' :: 'l' :: 'l' :: rest => some (none, rest)
  | '[' :: ']' :: rest => some (some [], rest)
  | '[' :: rest => (parseNamesAux rest.length rest).map (fun p => (some p.1, p.2))
  | _ => none

/-- json.Unmarshal of a whole wsRequest body. -/
def parseWsRequest (l : List Char) : Option WsRequest :=
  match parseLit "\x7b\"SUBSCRIBE\":".toList l with
  | none => none
  | some r =>
    match parseNames r with
    | none => none
    | some (sub, r) =>
      match parseLit ",\"UNSUBSCRIBE\":".toList r with
      | none => none
      | some r =>
        match parseNames r with
        | none => none
        | some (unsub, r) =>
          match parseLit ",\"SESSION_ID\":".toList r with
          | none => none
          | some r =>
            match parseJStr r with
            | none => none
            | some (sid, r) =>
              match r with
              | ['\x7d'] => some ⟨sub, unsub, sid⟩
              | _ => none

/-- The whole decode of a frame into a wsRequest: the frame step, then
json.Unmarshal on the body it hands over. -/
def wsUnmarshalReq (data : List Char) : Option (Except GoErr (Option WsRequest)) :=
  match wsUnmarshalFrame data with
  | none => none
  | some (.error e) => some (.error e)
  | some (.ok none) => some (.ok none)
  | some (.ok (some body)) =>
    match parseWsRequest body with
    | some r => some (.ok (some r))
    | none => some (.error .jsonError)

/-! ## Concrete fixtures (the spec's own examples) -/

def dpiVals1 : DPIRaw := ⟨"1", "2", "3", "4"⟩

def dpiVals5 : DPIRaw := ⟨"5", "6", "7", "8"⟩

def dpiEntry1 : String × List (String × DPIRaw) :=
  ("192.168.1.1", [("Web|Web - Other", dpiVals1)])

def dpiEntry2 : String × List (String × DPIRaw) :=
  ("192.168.1.2", [("P2P|BitTorrent series", dpiVals5)])

def ip_192_168_1_1 : List Nat := v4InV6 [192, 168, 1, 1]

def ip_192_168_1_2 : List Nat := v4InV6 [192, 168, 1, 2]

/-- The record an all-defaults (absent-fields) interface entry decodes
to: booleans false, numerics zero, no MAC, no addresses. -/
def ifaceZeroRec (k : String) : Interface :=
  { name := k, up := false, autonegotiation := false, duplex := "", speed := 0
    mac := none, mtu := 0, addresses := []
    stats := ⟨0, 0, 0, 0, 0, 0, 0, 0, 0, 0, 0⟩ }

/-- A non-empty, non-integer string in a field declared numeric (the
empty string is singled out because the Interfaces decoder defaults it
to zero instead of failing). -/
def NonNum (s : String) : Prop := s ≠ "" ∧ goAtoi s = none

instance (s : String) : Decidable (NonNum s) := by
  unfold NonNum; infer_instance

end Edgemax

namespace Edgemax

/-! # Helper lemmas -/

@[simp]
theorem exceptBind_ok {ε α β : Type} (a : α) (f : α → Except ε β) :
    (Except.ok a >>= f) = f a := rfl

@[simp]
theorem exceptBind_error {ε α β : Type} (e : ε) (f : α → Except ε β) :
    ((Except.error e : Except ε α) >>= f) = Except.error e := rfl

theorem listCharLt_asymm (a : List Char) :
    ∀ b, listCharLt a b = true → listCharLt b a = false := by
  induction a with
  | nil =>
    intro b hb
    cases b with
    | nil => simp [listCharLt] at hb
    | cons y ys => simp [listCharLt]
  | cons x xs ih =>
    intro b hb
    cases b with
    | nil => simp [listCharLt] at hb
    | cons y ys =>
      simp only [listCharLt] at hb ⊢
      by_cases h1 : x.toNat < y.toNat
      · rw [if_neg (by omega), if_pos h1]
      · by_cases h2 : y.toNat < x.toNat
        · rw [if_neg h1, if_pos h2] at hb
          exact absurd hb (by simp)
        · rw [if_neg h1, if_neg h2] at hb
          rw [if_neg h2, if_neg h1]
          exact ih ys hb

theorem listCharLt_negtrans (a : List Char) :
    ∀ b c, listCharLt a b = false → listCharLt b c = false →
      listCharLt a c = false := by
  induction a with
  | nil =>
    intro b c h1 h2
    cases b with
    | nil => exact h2
    | cons y ys => simp [listCharLt] at h1
  | cons x xs ih =>
    intro b c h1 h2
    cases b with
    | nil =>
      cases c with
      | nil => simp [listCharLt]
      | cons z zs => simp [listCharLt] at h2
    | cons y ys =>
      cases c with
      | nil => simp [listCharLt]
      | cons z zs =>
        simp only [listCharLt] at h1 h2 ⊢
        by_cases hxy : x.toNat < y.toNat
        · rw [if_pos hxy] at h1
          exact absurd h1 (by simp)
        · rw [if_neg hxy] at h1
          by_cases hyz : y.toNat < z.toNat
          · rw [if_pos hyz] at h2
            exact absurd h2 (by simp)
          · rw [if_neg hyz] at h2
            by_cases hyx : y.toNat < x.toNat
            · rw [if_neg (show ¬ x.toNat < z.toNat by omega),
                if_pos (show z.toNat < x.toNat by omega)]
            · rw [if_neg hyx] at h1
              by_cases hzy : z.toNat < y.toNat
              · rw [if_neg (show ¬ x.toNat < z.toNat by omega),
                  if_pos (show z.toNat < x.toNat by omega)]
              · rw [if_neg hzy] at h2
                rw [if_neg (show ¬ x.toNat < z.toNat by omega),
                  if_neg (show ¬ z.toNat < x.toNat by omega)]
                exact ih ys zs h1 h2

theorem mem_insGo {α : Type} {less : α → α → Bool} {w x : α} :
    ∀ {l : List α}, w ∈ insGo less l x → w = x ∨ w ∈ l := by
  intro l
  induction l with
  | nil =>
    intro h
    simp [insGo] at h
    exact Or.inl h
  | cons z zs ih =>
    intro h
    by_cases hp : less x z = true
    · rw [show insGo less (z :: zs) x = z :: insGo less zs x by
        simp [insGo, List.takeWhile_cons, List.dropWhile_cons, hp]] at h
      rcases List.mem_cons.mp h with h | h
      · exact Or.inr (h ▸ List.mem_cons_self z zs)
      · rcases ih h with h | h
        · exact Or.inl h
        · exact Or.inr (List.mem_cons_of_mem z h)
    · rw [show insGo less (z :: zs) x = x :: z :: zs by
        simp [insGo, List.takeWhile_cons, List.dropWhile_cons, hp]] at h
      rcases List.mem_cons.mp h with h | h
      · exact Or.inl h
      · exact Or.inr h

theorem insGo_pairwise {α : Type} {less : α → α → Bool} {r : α → α → Prop}
    (hlt : ∀ a b, less a b = true → r b a)
    (hnlt : ∀ a b, less a b = false → r a b)
    (htr : ∀ a b c, r a b → r b c → r a c) :
    ∀ (racc : List α) (x : α), racc.Pairwise r → (insGo less racc x).Pairwise r := by
  intro racc x h
  induction racc with
  | nil => simp [insGo]
  | cons z zs ih =>
    rcases List.pairwise_cons.mp h with ⟨hz, hzs⟩
    by_cases hp : less x z = true
    · rw [show insGo less (z :: zs) x = z :: insGo less zs x by
        simp [insGo, List.takeWhile_cons, List.dropWhile_cons, hp]]
      refine List.pairwise_cons.mpr ⟨?_, ih hzs⟩
      intro w hw
      rcases mem_insGo hw with h | h
      · exact h ▸ hlt x z hp
      · exact hz w h
    · rw [show insGo less (z :: zs) x = x :: z :: zs by
        simp [insGo, List.takeWhile_cons, List.dropWhile_cons, hp]]
      have hxz : r x z := hnlt x z (by simpa using hp)
      refine List.pairwise_cons.mpr ⟨?_, h⟩
      intro w hw
      rcases List.mem_cons.mp hw with h | h
      · exact h ▸ hxz
      · exact htr x z w hxz (hz w h)

theorem foldl_insGo_pairwise {α : Type} {less : α → α → Bool} {r : α → α → Prop}
    (hlt : ∀ a b, less a b = true → r b a)
    (hnlt : ∀ a b, less a b = false → r a b)
    (htr : ∀ a b c, r a b → r b c → r a c) :
    ∀ (l racc : List α), racc.Pairwise r → (l.foldl (insGo less) racc).Pairwise r := by
  intro l
  induction l with
  | nil => intro racc h; simpa using h
  | cons x xs ih =>
    intro racc h
    simpa using ih (insGo less racc x) (insGo_pairwise hlt hnlt htr racc x h)

theorem mapM_error_of_mem {α β : Type} {f : α → Except GoErr β} :
    ∀ {l : List α} {a : α}, a ∈ l → (∃ e, f a = .error e) →
      ∃ e, l.mapM f = .error e := by
  intro l
  induction l with
  | nil => intro a ha _; exact absurd ha (List.not_mem_nil a)
  | cons hd tl ih =>
    intro a ha hfa
    rcases List.mem_cons.mp ha with rfl | hmem
    · obtain ⟨e, he⟩ := hfa
      exact ⟨e, by rw [List.mapM_cons, he]; simp⟩
    · cases hf : f hd with
      | error e => exact ⟨e, by rw [List.mapM_cons, hf]; simp⟩
      | ok b =>
        obtain ⟨e, he⟩ := ih hmem hfa
        exact ⟨e, by rw [List.mapM_cons, hf, he]; simp⟩

theorem mapM_ok_getD {α β : Type} {f : α → Except GoErr β} [Inhabited β] :
    ∀ {l : List α} {ys : List β}, l.mapM f = .ok ys →
      ∀ (i : Nat) (d : α) (d' : β), i < l.length → f (l.getD i d) = .ok (ys.getD i d') := by
  intro l
  induction l with
  | nil =>
    intro ys _ i d d' hi
    exact absurd hi (by simp)
  | cons hd tl ih =>
    intro ys h i d d' hi
    rw [List.mapM_cons] at h
    cases hf : f hd with
    | error e => rw [hf] at h; simp at h
    | ok b =>
      rw [hf] at h
      cases hm : tl.mapM f with
      | error e => rw [hm] at h; simp at h
      | ok bs =>
        rw [hm] at h
        simp at h
        subst h
        cases i with
        | zero => simpa using hf
        | succ i => exact ih hm i d d' (by simpa using hi)

theorem foldlM_error_of_mem {α β : Type} {f : β → α → Except GoErr β} :
    ∀ {l : List α} {a : α}, a ∈ l → (∀ acc, ∃ e, f acc a = .error e) →
      ∀ acc, ∃ e, l.foldlM f acc = .error e := by
  intro l
  induction l with
  | nil => intro a ha _ _; exact absurd ha (List.not_mem_nil a)
  | cons hd tl ih =>
    intro a ha hfa acc
    rcases List.mem_cons.mp ha with rfl | hmem
    · obtain ⟨e, he⟩ := hfa acc
      exact ⟨e, by rw [List.foldlM_cons, he]; simp⟩
    · cases hf : f acc hd with
      | error e => exact ⟨e, by rw [List.foldlM_cons, hf]; simp⟩
      | ok b =>
        obtain ⟨e, he⟩ := ih hmem hfa b
        exact ⟨e, by rw [List.foldlM_cons, hf]; simpa using he⟩

theorem asString_toList (s : String) : s.toList.asString = s := rfl

theorem splitFirst_eq_none {sep : Char} :
    ∀ {l : List Char}, sep ∉ l → splitFirst sep l = none := by
  intro l
  induction l with
  | nil => intro _; rfl
  | cons c cs ih =>
    intro h
    have hc : ¬ c = sep := fun hh => h (hh ▸ List.mem_cons_self c cs)
    have hcs : sep ∉ cs := fun hh => h (List.mem_cons_of_mem c hh)
    simp [splitFirst, hc, ih hcs]

theorem splitFirst_append_sep {sep : Char} :
    ∀ {pre : List Char} (rest : List Char), sep ∉ pre →
      splitFirst sep (pre ++ sep :: rest) = some (pre, rest) := by
  intro pre
  induction pre with
  | nil => intro rest _; simp [splitFirst]
  | cons c cs ih =>
    intro rest h
    have hc : ¬ c = sep := fun hh => h (hh ▸ List.mem_cons_self c cs)
    have hcs : sep ∉ cs := fun hh => h (List.mem_cons_of_mem c hh)
    simp [splitFirst, hc, ih rest hcs]

theorem splitFirst_isSome_of_mem {sep : Char} :
    ∀ {l : List Char}, sep ∈ l → ∃ a b, splitFirst sep l = some (a, b) := by
  intro l
  induction l with
  | nil => intro h; exact absurd h (List.not_mem_nil sep)
  | cons c cs ih =>
    intro h
    by_cases hc : c = sep
    · exact ⟨[], cs, by simp [splitFirst, hc]⟩
    · have : sep ∈ cs := by
        rcases List.mem_cons.mp h with h | h
        · exact absurd h.symm hc
        · exact h
      obtain ⟨a, b, hab⟩ := ih this
      exact ⟨c :: a, b, by simp [splitFirst, hc, hab]⟩

/-- Evaluation of the frame decoder on a non-brace first byte. -/
theorem wsUnmarshalFrame_cons (c : Char) (cs : List Char) (hc : ¬ c = '\x7b') :
    wsUnmarshalFrame (c :: cs) =
      some (if (splitN2 '\n' (c :: cs)).length = 2 then
              (if (splitN2 '\n' (c :: cs)).getD 1 [] = [] then .ok none
               else .ok (some ((splitN2 '\n' (c :: cs)).getD 1 [])))
            else .error (.countError (splitN2 '\n' (c :: cs)).length)) := by
  simp [wsUnmarshalFrame, hc]

theorem buildInterface_error {k : String} {r : IfaceRaw} {e : GoErr}
    (he : (ifaceNumStrings r).mapM parseNumField = .error e) :
    buildInterface k r = .error e := by
  unfold buildInterface
  rw [he]
  rfl

theorem interfacesUnmarshal_error {entries : List (String × IfaceRaw)} {e : GoErr}
    (he : entries.mapM (fun e => buildInterface e.1 e.2) = .error e) :
    interfacesUnmarshal entries = .error e := by
  unfold interfacesUnmarshal
  rw [he]
  rfl

theorem dpiStep_error {ipk : String} {inner : List (String × DPIRaw)}
    {ip : List Nat} {acc : List DPIStat} {e : GoErr}
    (hipk : parseIP ipk = some ip) (he : inner.mapM (dpiInner ip) = .error e) :
    dpiStep acc (ipk, inner) = .error e := by
  show (match parseIP ipk with
    | none => Except.ok acc
    | some ip => do
      let stats ← inner.mapM (dpiInner ip)
      Except.ok (acc ++ stats)) = Except.error e
  rw [hipk]
  show (do
    let stats ← inner.mapM (dpiInner ip)
    Except.ok (acc ++ stats)) = Except.error e
  rw [he]
  rfl

theorem dpiStatsUnmarshal_error {entries : List (String × List (String × DPIRaw))}
    {e : GoErr} (he : entries.foldlM dpiStep [] = .error e) :
    dpiStatsUnmarshal entries = .error e := by
  unfold dpiStatsUnmarshal
  rw [he]
  rfl

/-- Insertion sort with a comparator that is asymmetric and negatively
transitive yields a list in which no later element is strictly below an
earlier one. -/
theorem sortGo_pairwise {α : Type} {less : α → α → Bool}
    (hasymm : ∀ a b, less a b = true → less b a = false)
    (hntr : ∀ a b c, less a b = false → less b c = false → less a c = false)
    (l : List α) :
    (sortGo less l).Pairwise (fun a b => less b a = false) := by
  have h := @foldl_insGo_pairwise α less (fun a b => less a b = false)
    hasymm (fun _ _ h => h) hntr l [] (List.Pairwise.nil)
  unfold sortGo
  exact (List.pairwise_reverse).mpr (by simpa using h)

/-! ### Lemmas for the frame / JSON round trip -/

theorem itoa_digits : ∀ (n : Nat) (c : Char), c ∈ itoa n →
    48 ≤ c.toNat ∧ c.toNat ≤ 57 := by
  intro n
  induction n using Nat.strong_induction_on with
  | _ n ih =>
    intro c hc
    have hdc : ∀ m : Nat, m < 10 →
        48 ≤ (Nat.digitChar m).toNat ∧ (Nat.digitChar m).toNat ≤ 57 := by decide
    rw [itoa] at hc
    by_cases h : n < 10
    · rw [if_pos h] at hc
      have : c = Nat.digitChar n := by simpa using hc
      exact this ▸ hdc n h
    · rw [if_neg h] at hc
      rcases List.mem_append.mp hc with h1 | h2
      · exact ih (n / 10) (Nat.div_lt_self (by omega) (by omega)) c h1
      · have : c = Nat.digitChar (n % 10) := by simpa using h2
        exact this ▸ hdc (n % 10) (Nat.mod_lt n (by omega))

theorem itoa_ne_nil (n : Nat) : itoa n ≠ [] := by
  rw [itoa]
  by_cases h : n < 10
  · simp [h]
  · simp [h]

theorem parseLit_append : ∀ (lit rest : List Char),
    parseLit lit (lit ++ rest) = some rest := by
  intro lit
  induction lit with
  | nil => intro rest; rfl
  | cons c cs ih => intro rest; simp [parseLit, ih]

theorem parseJStrAux_append : ∀ (s : List Char), '"' ∉ s → ∀ rest,
    parseJStrAux (s ++ '"' :: rest) = some (s, rest) := by
  intro s
  induction s with
  | nil => intro _ rest; simp [parseJStrAux]
  | cons c cs ih =>
    intro h rest
    have hc : ¬ c = '"' := fun hh => h (hh ▸ List.mem_cons_self c cs)
    have hcs : '"' ∉ cs := fun hh => h (List.mem_cons_of_mem c hh)
    simp [parseJStrAux, hc, ih hcs rest]

theorem parseJStr_enc (s : String) (h : '"' ∉ s.toList) (rest : List Char) :
    parseJStr (encJStr s ++ rest) = some (s, rest) := by
  have heq : encJStr s ++ rest = '"' :: (s.toList ++ '"' :: rest) := by
    simp [encJStr]
  rw [heq]
  show (parseJStrAux (s.toList ++ '"' :: rest)).map (fun p => (p.1.asString, p.2))
    = some (s, rest)
  rw [parseJStrAux_append s.toList h rest]
  rfl

theorem parseNameObj_enc (n : String) (h : '"' ∉ n.toList) (rest : List Char) :
    parseNameObj (encName n ++ rest) = some (n, rest) := by
  have heq : encName n ++ rest = nameObjOpen ++ (encJStr n ++ '\x7d' :: rest) := by
    simp [encName]
  rw [heq]
  simp [parseNameObj, parseLit_append, parseJStr_enc n h]

theorem encNamesItems_cons_head (n : String) (ns : List String) :
    ∃ tl, encNamesItems (n :: ns) = '\x7b' :: tl := by
  cases ns with
  | nil => exact ⟨_, rfl⟩
  | cons m ms => exact ⟨_, rfl⟩

theorem encNamesItems_length : ∀ ns : List String,
    ns.length ≤ (encNamesItems ns).length := by
  intro ns
  induction ns with
  | nil => simp [encNamesItems]
  | cons n ms ih =>
    cases ms with
    | nil => simp [encNamesItems, encName, nameObjOpen, encJStr]
    | cons m ms2 =>
      simp only [encNamesItems, List.length_cons, List.length_append] at ih ⊢
      omega

theorem parseNamesAux_enc : ∀ (ns : List String), ns ≠ [] →
    (∀ n ∈ ns, '"' ∉ n.toList) →
    ∀ (fuel : Nat) (rest : List Char), ns.length ≤ fuel →
      parseNamesAux fuel (encNamesItems ns ++ ']' :: rest) = some (ns, rest) := by
  intro ns
  induction ns with
  | nil => intro h; exact absurd rfl h
  | cons n ms ih =>
    intro _ hplain fuel rest hfuel
    have hn : '"' ∉ n.toList := hplain n (List.mem_cons_self n ms)
    obtain ⟨f, rfl⟩ : ∃ f, fuel = f + 1 :=
      ⟨fuel - 1, by simp at hfuel; omega⟩
    cases ms with
    | nil =>
      show parseNamesAux (f + 1) (encName n ++ ']' :: rest) = some ([n], rest)
      simp [parseNamesAux, parseNameObj_enc n hn]
    | cons m ms2 =>
      have heq : encNamesItems (n :: m :: ms2) ++ ']' :: rest
          = encName n ++ ',' :: (encNamesItems (m :: ms2) ++ ']' :: rest) := by
        simp [encNamesItems]
      rw [heq]
      have hrec := ih (by simp)
        (fun x hx => hplain x (List.mem_cons_of_mem n hx)) f rest
        (by simp at hfuel ⊢; omega)
      simp [parseNamesAux, parseNameObj_enc n hn, hrec]

theorem parseNames_enc (ons : Option (List String))
    (hplain : ∀ l, ons = some l → ∀ n ∈ l, '"' ∉ n.toList) :
    ∀ rest, parseNames (encNames ons ++ rest) = some (ons, rest) := by
  intro rest
  match ons with
  | none =>
    show parseNames ('n' :: 'u' :: 'l' :: 'l' :: rest) = some (none, rest)
    rfl
  | some [] =>
    show parseNames ('[' :: ']' :: rest) = some (some [], rest)
    rfl
  | some (n :: ns) =>
    obtain ⟨tl, htl⟩ := encNamesItems_cons_head n ns
    have heq : encNames (some (n :: ns)) ++ rest
        = '[' :: '\x7b' :: (tl ++ ']' :: rest) := by
      simp [encNames, htl]
    rw [heq]
    rw [show parseNames ('[' :: '\x7b' :: (tl ++ ']' :: rest))
        = (parseNamesAux ('\x7b' :: (tl ++ ']' :: rest)).length
            ('\x7b' :: (tl ++ ']' :: rest))).map (fun p => (some p.1, p.2))
      from rfl]
    rw [show ('\x7b' : Char) :: (tl ++ ']' :: rest)
        = encNamesItems (n :: ns) ++ ']' :: rest by rw [htl]; simp]
    rw [parseNamesAux_enc (n :: ns) (by simp) (hplain _ rfl) _ rest
      (by
        have hlen := encNamesItems_length (n :: ns)
        simp only [List.length_append, List.length_cons] at hlen ⊢
        omega)]
    rfl

theorem parseWsRequest_enc (r : WsRequest) (h : PlainReq r) :
    parseWsRequest (encWsRequest r) = some r := by
  obtain ⟨hsub, hunsub, hsid⟩ := h
  have hq : ∀ s : String, PlainStr s → '"' ∉ s.toList := by
    intro s hs hmem
    exact (hs '"' hmem).1 rfl
  have hqsub : ∀ l, r.subscribe = some l → ∀ n ∈ l, '"' ∉ n.toList := by
    intro l hl n hn
    have := hsub
    rw [hl] at this
    exact hq n (this n hn)
  have hqunsub : ∀ l, r.unsubscribe = some l → ∀ n ∈ l, '"' ∉ n.toList := by
    intro l hl n hn
    have := hunsub
    rw [hl] at this
    exact hq n (this n hn)
  have heq : encWsRequest r
      = "\x7b\"SUBSCRIBE\":".toList ++ (encNames r.subscribe ++
          (",\"UNSUBSCRIBE\":".toList ++ (encNames r.unsubscribe ++
            (",\"SESSION_ID\":".toList ++ (encJStr r.sessionID ++ ['\x7d']))))) := by
    simp [encWsRequest]
  rw [heq]
  simp only [parseWsRequest, parseLit_append, parseNames_enc r.subscribe hqsub,
    parseNames_enc r.unsubscribe hqunsub, parseJStr_enc r.sessionID (hq _ hsid)]

end Edgemax

namespace Edgemax

/-! # Claim theorems -/

/-- C1: the claim that every accepted DPI input decodes to a list
sorted by (IP, then Type) fails on the code.  On the spec's own
two-IP example, when map iteration yields the 192.168.1.1 entry first,
the sort comparator — which falls through to the Type comparison even
when the first IP is strictly greater — swaps the pair, and the decoder
returns the entry with the larger IP first although ipLess orders
.1 before .2. -/
theorem dpiStatsUnmarshal_unsorted_on_example :
    dpiStatsUnmarshal [dpiEntry1, dpiEntry2] =
        .ok [⟨ip_192_168_1_2, "P2P", "BitTorrent series", 5, 6, 7, 8⟩,
             ⟨ip_192_168_1_1, "Web", "Web - Other", 1, 2, 3, 4⟩]
      ∧ ipLess ip_192_168_1_1 ip_192_168_1_2 = some true := by
  decide

/-- C2: the claim that the first differing byte decides ipLess fails on
the code.  The byte loop returns true as soon as ANY byte of a is
smaller than b's, so for 10.1.0.0 vs 10.0.0.1 — where the first
differing byte says 10.1.0.0 is greater — ipLess is true in BOTH
directions, which no first-differing-byte (or any strict) ordering
allows. -/
theorem ipLess_not_first_byte_decides :
    ipLess (v4InV6 [10, 1, 0, 0]) (v4InV6 [10, 0, 0, 1]) = some true
      ∧ ipLess (v4InV6 [10, 0, 0, 1]) (v4InV6 [10, 1, 0, 0]) = some true := by
  decide

/-- C10: the claim that the decoders are insensitive to the iteration
order of the intermediate maps fails on the code: the same two DPI
map entries presented in the two possible iteration orders decode to
different lists (one sorted, one not), because the broken comparator
makes the sort order-dependent. -/
theorem dpiStatsUnmarshal_order_dependent :
    dpiStatsUnmarshal [dpiEntry1, dpiEntry2] =
        .ok [⟨ip_192_168_1_2, "P2P", "BitTorrent series", 5, 6, 7, 8⟩,
             ⟨ip_192_168_1_1, "Web", "Web - Other", 1, 2, 3, 4⟩]
      ∧ dpiStatsUnmarshal [dpiEntry2, dpiEntry1] =
          .ok [⟨ip_192_168_1_1, "Web", "Web - Other", 1, 2, 3, 4⟩,
               ⟨ip_192_168_1_2, "P2P", "BitTorrent series", 5, 6, 7, 8⟩]
      ∧ decide (dpiStatsUnmarshal [dpiEntry1, dpiEntry2] =
          dpiStatsUnmarshal [dpiEntry2, dpiEntry1]) = false := by
  decide

/-- C5 counterexample: an inner key with TWO '|' separators — so not
"exactly one" — does not fail the decode: strings.SplitN with limit 2
still yields two parts, and the record decodes with the remainder after
the first separator as its Category. -/
theorem dpi_double_separator_key_ok :
    dpiStatsUnmarshal [("192.168.1.1", [("a|b|c", dpiVals1)])] =
      .ok [⟨ip_192_168_1_1, "a", "b|c", 1, 2, 3, 4⟩] := by
  decide

/-- C6 counterexample: a buffer with three newline-delimited segments
(first byte not a brace) does not fail with an element-count error:
bytes.SplitN splits at the FIRST newline only, so the decoder succeeds
and hands the entire remainder — itself containing a newline — to
json.Unmarshal. -/
theorem wsUnmarshal_three_segments_no_count_error :
    (("3\n\x7b\n\x7d".toList).splitOn '\n').length = 3
      ∧ wsUnmarshalFrame "3\n\x7b\n\x7d".toList =
          some (.ok (some "\x7b\n\x7d".toList)) := by
  decide

/-- C9: the frame decoder reads data[0] unconditionally, so the empty
buffer panics (none); every non-empty buffer produces a result — a
decoded hand-off or an error. -/
theorem wsUnmarshalFrame_empty_panics :
    wsUnmarshalFrame [] = none
      ∧ ∀ data : List Char, data ≠ [] → ∃ r, wsUnmarshalFrame data = some r := by
  refine ⟨rfl, ?_⟩
  intro data h
  match data with
  | _ :: _ => exact ⟨_, rfl⟩

/-- Witness for C9 at the one-byte buffer "5". -/
theorem wsUnmarshalFrame_empty_panics_witness :
    ∃ r, wsUnmarshalFrame ['5'] = some r :=
  wsUnmarshalFrame_empty_panics.2 ['5'] (by decide)

/-- C7: every input the Interfaces decoder accepts comes out sorted
ascending by interface name under Go's byte-wise string comparison —
no later record's name is below an earlier one — whatever the iteration
order of the input object's keys. -/
theorem interfacesUnmarshal_sorted_by_name :
    ∀ (entries : List (String × IfaceRaw)) (l : List Interface),
      interfacesUnmarshal entries = .ok l →
      l.Pairwise (fun a b => byInterfaceNameLess b a = false) := by
  intro entries l h
  have hasymm : ∀ a b : Interface,
      byInterfaceNameLess a b = true → byInterfaceNameLess b a = false := by
    intro a b hab
    simp only [byInterfaceNameLess, goStringLt] at hab ⊢
    exact listCharLt_asymm _ _ hab
  have hntr : ∀ a b c : Interface,
      byInterfaceNameLess a b = false → byInterfaceNameLess b c = false →
      byInterfaceNameLess a c = false := by
    intro a b c h1 h2
    simp only [byInterfaceNameLess, goStringLt] at h1 h2 ⊢
    exact listCharLt_negtrans _ _ _ h1 h2
  unfold interfacesUnmarshal at h
  cases hm : entries.mapM (fun e => buildInterface e.1 e.2) with
  | error e => rw [hm] at h; simp at h
  | ok is =>
    rw [hm] at h
    simp at h
    subst h
    exact sortGo_pairwise hasymm hntr is

/-- Witness for C7 at the spec's own example: keys presented in the
order eth1, eth0 decode to the records for eth0 then eth1. -/
theorem interfacesUnmarshal_sorted_by_name_witness :
    interfacesUnmarshal [("eth1", {}), ("eth0", {})] =
        .ok [ifaceZeroRec "eth0", ifaceZeroRec "eth1"]
      ∧ ([ifaceZeroRec "eth0", ifaceZeroRec "eth1"] :
          List Interface).Pairwise (fun a b => byInterfaceNameLess b a = false) :=
  ⟨by decide,
   interfacesUnmarshal_sorted_by_name [("eth1", {}), ("eth0", {})] _ (by decide)⟩

/-- C8: for any record the Interfaces decoder builds, Up and
Autonegotiation are true exactly when the raw string equals "true", and
every numeric field given the empty string comes out 0; moreover
whatever the up/autoneg/duplex strings are, a record whose remaining
fields are absent builds without error, its booleans again decided by
literal comparison with "true". -/
theorem interfaces_empty_numeric_and_bool_fields :
    (∀ (k : String) (r : IfaceRaw) (rec : Interface),
        buildInterface k r = .ok rec →
        rec.up = (r.up == "true")
      ∧ rec.autonegotiation = (r.autoneg == "true")
      ∧ (r.speed = "" → rec.speed = 0)
      ∧ (r.mtu = "" → rec.mtu = 0)
      ∧ (r.stats.rxPackets = "" → rec.stats.receivePackets = 0)
      ∧ (r.stats.txPackets = "" → rec.stats.transmitPackets = 0)
      ∧ (r.stats.rxBytes = "" → rec.stats.receiveBytes = 0)
      ∧ (r.stats.txBytes = "" → rec.stats.transmitBytes = 0)
      ∧ (r.stats.rxErrors = "" → rec.stats.receiveErrors = 0)
      ∧ (r.stats.txErrors = "" → rec.stats.transmitErrors = 0)
      ∧ (r.stats.rxDropped = "" → rec.stats.receiveDropped = 0)
      ∧ (r.stats.txDropped = "" → rec.stats.transmitDropped = 0)
      ∧ (r.stats.multicast = "" → rec.stats.multicast = 0)
      ∧ (r.stats.rxBPS = "" → rec.stats.receiveBPS = 0)
      ∧ (r.stats.txBPS = "" → rec.stats.transmitBPS = 0))
  ∧ (∀ (k up autoneg duplex : String),
      buildInterface k { up := up, autoneg := autoneg, duplex := duplex } =
        .ok { name := k, up := up == "true", autonegotiation := autoneg == "true"
              duplex := duplex, speed := 0, mac := none, mtu := 0, addresses := []
              stats := ⟨0, 0, 0, 0, 0, 0, 0, 0, 0, 0, 0⟩ }) := by
  have empty_field_zero : ∀ {r : IfaceRaw} {ints : List Int},
      (ifaceNumStrings r).mapM parseNumField = .ok ints →
      ∀ (i : Nat), i < 13 → (ifaceNumStrings r).getD i "" = "" →
      ints.getD i 0 = 0 := by
    intro r ints hm i hi he
    have k := mapM_ok_getD hm i "" 0
      (by rw [show (ifaceNumStrings r).length = 13 from rfl]; exact hi)
    rw [he] at k
    exact (Except.ok.inj k).symm
  refine ⟨?_, ?_⟩
  · intro k r rec h
    unfold buildInterface at h
    cases hm : (ifaceNumStrings r).mapM parseNumField with
    | error e => rw [hm] at h; simp at h
    | ok ints =>
      rw [hm] at h
      cases hmac : parseMACField r.mac with
      | error e => rw [hmac] at h; simp at h
      | ok mac =>
        rw [hmac] at h
        cases haddr : parseAddrs r.addresses with
        | error e => rw [haddr] at h; simp at h
        | ok ips =>
          rw [haddr] at h
          simp only [exceptBind_ok, Except.ok.injEq] at h
          subst h
          exact ⟨rfl, rfl,
            fun he => empty_field_zero hm 0 (by norm_num) he,
            fun he => empty_field_zero hm 1 (by norm_num) he,
            fun he => empty_field_zero hm 2 (by norm_num) he,
            fun he => empty_field_zero hm 3 (by norm_num) he,
            fun he => empty_field_zero hm 4 (by norm_num) he,
            fun he => empty_field_zero hm 5 (by norm_num) he,
            fun he => empty_field_zero hm 6 (by norm_num) he,
            fun he => empty_field_zero hm 7 (by norm_num) he,
            fun he => empty_field_zero hm 8 (by norm_num) he,
            fun he => empty_field_zero hm 9 (by norm_num) he,
            fun he => empty_field_zero hm 10 (by norm_num) he,
            fun he => empty_field_zero hm 11 (by norm_num) he,
            fun he => empty_field_zero hm 12 (by norm_num) he⟩
  · intro k up autoneg duplex
    rfl

/-- Witness for C8: an absent-fields record under arbitrary booleans,
and the concrete all-defaults record. -/
theorem interfaces_empty_numeric_and_bool_fields_witness :
    buildInterface "eth0" {} = .ok (ifaceZeroRec "eth0")
      ∧ (ifaceZeroRec "eth0").speed = 0
      ∧ (ifaceZeroRec "eth0").up = (("" : String) == "true") := by
  refine ⟨by decide, ?_, ?_⟩
  · exact (interfaces_empty_numeric_and_bool_fields.1 "eth0" {}
      (ifaceZeroRec "eth0") (by decide)).2.2.1 rfl
  · exact (interfaces_empty_numeric_and_bool_fields.1 "eth0" {}
      (ifaceZeroRec "eth0") (by decide)).1

/-- C4: in each of the three decoders, a record carrying a non-empty
non-numeric string in a numeric field fails the whole decode — the
Except value is an error carrying no result, matching the source, which
assigns the destination only on the all-success path (for DPIStats the
record must sit under an outer key that parses as an IP, since
unparseable outer keys are dropped before any field is read). -/
theorem stat_decoders_error_on_non_numeric :
    (∀ v : SysRaw, NonNum v.cpu ∨ NonNum v.uptime ∨ NonNum v.mem →
        ∃ e, systemStatsUnmarshal v = .error e)
  ∧ (∀ (entries : List (String × IfaceRaw)) (k : String) (r : IfaceRaw) (s : String),
        (k, r) ∈ entries → s ∈ ifaceNumStrings r → NonNum s →
        ∃ e, interfacesUnmarshal entries = .error e)
  ∧ (∀ (entries : List (String × List (String × DPIRaw)))
        (ipk : String) (inner : List (String × DPIRaw)) (kv : String × DPIRaw),
        (ipk, inner) ∈ entries → (parseIP ipk).isSome → kv ∈ inner →
        NonNum kv.2.rxBytes ∨ NonNum kv.2.rxRate ∨
          NonNum kv.2.txBytes ∨ NonNum kv.2.txRate →
        ∃ e, dpiStatsUnmarshal entries = .error e) := by
  refine ⟨?_, ?_, ?_⟩
  · intro v hv
    rcases hv with ⟨_, h1⟩ | ⟨_, h2⟩ | ⟨_, h3⟩
    · exact ⟨.numError v.cpu, by simp [systemStatsUnmarshal, atoiE, h1]⟩
    · cases hc : goAtoi v.cpu with
      | none => exact ⟨.numError v.cpu, by simp [systemStatsUnmarshal, atoiE, hc]⟩
      | some c =>
        exact ⟨.numError v.uptime, by simp [systemStatsUnmarshal, atoiE, hc, h2]⟩
    · cases hc : goAtoi v.cpu with
      | none => exact ⟨.numError v.cpu, by simp [systemStatsUnmarshal, atoiE, hc]⟩
      | some c =>
        cases hu : goAtoi v.uptime with
        | none =>
          exact ⟨.numError v.uptime, by simp [systemStatsUnmarshal, atoiE, hc, hu]⟩
        | some u =>
          exact ⟨.numError v.mem, by simp [systemStatsUnmarshal, atoiE, hc, hu, h3]⟩
  · intro entries k r s hmem hs hnn
    obtain ⟨hne, hnone⟩ := hnn
    have hb : ∃ e, buildInterface k r = .error e := by
      have hpf : parseNumField s = .error (.numError s) := by
        simp [parseNumField, hne, atoiE, hnone]
      obtain ⟨e, he⟩ := mapM_error_of_mem hs ⟨_, hpf⟩
      exact ⟨e, buildInterface_error he⟩
    obtain ⟨e, he⟩ :=
      @mapM_error_of_mem (String × IfaceRaw) Interface
        (fun e => buildInterface e.1 e.2) entries (k, r) hmem hb
    exact ⟨e, interfacesUnmarshal_error he⟩
  · intro entries ipk inner kv hmem hip hkv hbad
    have hinner : ∀ ip, ∃ e, dpiInner ip kv = .error e := by
      intro ip
      cases hsp : splitN2Str '|' kv.1 with
      | nil => exact ⟨.statType kv.1, by simp [dpiInner, hsp]⟩
      | cons t rest =>
        cases rest with
        | nil => exact ⟨.statType kv.1, by simp [dpiInner, hsp]⟩
        | cons c rest2 =>
          cases rest2 with
          | cons d rest3 => exact ⟨.statType kv.1, by simp [dpiInner, hsp]⟩
          | nil =>
            rcases hbad with ⟨_, hn⟩ | ⟨_, hn⟩ | ⟨_, hn⟩ | ⟨_, hn⟩
            · exact ⟨.numError kv.2.rxBytes, by simp [dpiInner, hsp, atoiE, hn]⟩
            · cases h1 : goAtoi kv.2.rxBytes with
              | none =>
                exact ⟨.numError kv.2.rxBytes, by simp [dpiInner, hsp, atoiE, h1]⟩
              | some a =>
                exact ⟨.numError kv.2.rxRate, by simp [dpiInner, hsp, atoiE, h1, hn]⟩
            · cases h1 : goAtoi kv.2.rxBytes with
              | none =>
                exact ⟨.numError kv.2.rxBytes, by simp [dpiInner, hsp, atoiE, h1]⟩
              | some a =>
                cases h2 : goAtoi kv.2.rxRate with
                | none =>
                  exact ⟨.numError kv.2.rxRate, by simp [dpiInner, hsp, atoiE, h1, h2]⟩
                | some b =>
                  exact ⟨.numError kv.2.txBytes,
                    by simp [dpiInner, hsp, atoiE, h1, h2, hn]⟩
            · cases h1 : goAtoi kv.2.rxBytes with
              | none =>
                exact ⟨.numError kv.2.rxBytes, by simp [dpiInner, hsp, atoiE, h1]⟩
              | some a =>
                cases h2 : goAtoi kv.2.rxRate with
                | none =>
                  exact ⟨.numError kv.2.rxRate, by simp [dpiInner, hsp, atoiE, h1, h2]⟩
                | some b =>
                  cases h3 : goAtoi kv.2.txBytes with
                  | none =>
                    exact ⟨.numError kv.2.txBytes,
                      by simp [dpiInner, hsp, atoiE, h1, h2, h3]⟩
                  | some c =>
                    exact ⟨.numError kv.2.txRate,
                      by simp [dpiInner, hsp, atoiE, h1, h2, h3, hn]⟩
    have hstep : ∀ acc, ∃ e, dpiStep acc (ipk, inner) = .error e := by
      intro acc
      obtain ⟨ip, hipk⟩ := Option.isSome_iff_exists.mp hip
      obtain ⟨e, he⟩ := mapM_error_of_mem hkv (hinner ip)
      exact ⟨e, dpiStep_error hipk he⟩
    obtain ⟨e, he⟩ := foldlM_error_of_mem hmem hstep []
    exact ⟨e, dpiStatsUnmarshal_error he⟩

/-- C5 (amended): an outer DPI key net.ParseIP rejects is dropped
silently with all its inner entries; an inner key containing NO '|'
fails the whole decode with an error naming that key; but a key
containing one or more '|' always splits into two parts at the first
separator (so "exactly one" overstates the failing condition — keys
with two or more separators decode, see the counterexample). -/
theorem dpi_outer_key_drop_inner_key_error :
    (∀ (bad : String) (inner : List (String × DPIRaw))
        (pre post : List (String × List (String × DPIRaw))),
        parseIP bad = none →
        dpiStatsUnmarshal (pre ++ (bad, inner) :: post) =
          dpiStatsUnmarshal (pre ++ post))
  ∧ (∀ (ipk key : String) (vals : DPIRaw) (rest : List (String × DPIRaw)),
        (parseIP ipk).isSome → '|' ∉ key.toList →
        dpiStatsUnmarshal [(ipk, (key, vals) :: rest)] =
          .error (.statType key))
  ∧ (∀ key : String, '|' ∈ key.toList →
        ∃ t c, splitN2Str '|' key = [t, c]) := by
  refine ⟨?_, ?_, ?_⟩
  · intro bad inner pre post hbad
    have hstep : ∀ acc, dpiStep acc (bad, inner) = .ok acc := by
      intro acc
      show (match parseIP bad with
        | none => Except.ok acc
        | some ip => do
          let stats ← inner.mapM (dpiInner ip)
          Except.ok (acc ++ stats)) = Except.ok acc
      rw [hbad]
    have hfold : ∀ acc,
        (pre ++ (bad, inner) :: post).foldlM dpiStep acc =
          (pre ++ post).foldlM dpiStep acc := by
      induction pre with
      | nil =>
        intro acc
        simp only [List.nil_append]
        rw [List.foldlM_cons, hstep acc]
        simp
      | cons p ps ih =>
        intro acc
        simp only [List.cons_append]
        rw [List.foldlM_cons, List.foldlM_cons]
        cases hp : dpiStep acc p with
        | error e => simp
        | ok b => simpa using ih b
    unfold dpiStatsUnmarshal
    rw [hfold []]
  · intro ipk key vals rest hip hkey
    obtain ⟨ip, hipk⟩ := Option.isSome_iff_exists.mp hip
    have hsp : splitN2Str '|' key = [key] := by
      unfold splitN2Str splitN2
      rw [splitFirst_eq_none hkey]
      rfl
    have hinner : dpiInner ip (key, vals) = .error (.statType key) := by
      simp [dpiInner, hsp]
    have hmapm : ((key, vals) :: rest).mapM (dpiInner ip) =
        .error (.statType key) := by
      rw [List.mapM_cons, hinner]
      rfl
    have hfold : ([(ipk, (key, vals) :: rest)]).foldlM dpiStep
        ([] : List DPIStat) = .error (.statType key) := by
      rw [List.foldlM_cons, dpiStep_error hipk hmapm]
      rfl
    exact dpiStatsUnmarshal_error hfold
  · intro key hk
    obtain ⟨a, b, hab⟩ := splitFirst_isSome_of_mem hk
    refine ⟨a.asString, b.asString, ?_⟩
    unfold splitN2Str splitN2
    rw [hab]
    rfl

/-- Witness for C5 (amended): a non-IP outer key is dropped, a key with
no separator errors naming it, and a one-separator key splits. -/
theorem dpi_outer_key_drop_inner_key_error_witness :
    dpiStatsUnmarshal [("foo", [("x", dpiVals1)]), dpiEntry1] =
        dpiStatsUnmarshal [dpiEntry1]
      ∧ dpiStatsUnmarshal [("192.168.1.1", [("NoSeparator", dpiVals1)])] =
          .error (.statType "NoSeparator")
      ∧ ∃ t c, splitN2Str '|' "a|b" = [t, c] :=
  ⟨dpi_outer_key_drop_inner_key_error.1 "foo" [("x", dpiVals1)] [] [dpiEntry1]
     (by decide),
   dpi_outer_key_drop_inner_key_error.2.1 "192.168.1.1" "NoSeparator" dpiVals1 []
     (by decide) (by decide),
   dpi_outer_key_drop_inner_key_error.2.2 "a|b" (by decide)⟩

/-- C6 (amended): on a non-empty buffer whose first byte is not a
brace, the split at the first newline yields one or two parts — never
zero or more than two; exactly one part (no newline at all) fails with
the error naming count 1; a buffer with a newline decodes to the
zero-value success when nothing follows the first newline and otherwise
hands everything after the first newline to json.Unmarshal. -/
theorem wsUnmarshal_split_behavior :
    ∀ (data : List Char), data ≠ [] → data.headD ' ' ≠ '\x7b' →
      (1 ≤ (splitN2 '\n' data).length ∧ (splitN2 '\n' data).length ≤ 2)
    ∧ ((splitN2 '\n' data).length = 1 →
        wsUnmarshalFrame data = some (.error (.countError 1)))
    ∧ (∀ pre rest, data = pre ++ '\n' :: rest → '\n' ∉ pre →
        wsUnmarshalFrame data =
          some (if rest = [] then .ok none else .ok (some rest))) := by
  intro data hne hhead
  obtain ⟨c, cs, rfl⟩ : ∃ c cs, data = c :: cs := by
    cases data with
    | nil => exact absurd rfl hne
    | cons c cs => exact ⟨c, cs, rfl⟩
  have hc : ¬ c = '\x7b' := by simpa using hhead
  refine ⟨?_, ?_, ?_⟩
  · unfold splitN2
    cases h : splitFirst '\n' (c :: cs) with
    | none => simp
    | some p => simp
  · intro hlen
    have hnone : splitFirst '\n' (c :: cs) = none := by
      cases h : splitFirst '\n' (c :: cs) with
      | none => rfl
      | some p =>
        unfold splitN2 at hlen
        rw [h] at hlen
        simp at hlen
    rw [wsUnmarshalFrame_cons c cs hc]
    simp [splitN2, hnone]
  · intro pre rest hdata hpre
    have hsf : splitFirst '\n' (c :: cs) = some (pre, rest) := by
      rw [hdata]
      exact splitFirst_append_sep rest hpre
    rw [wsUnmarshalFrame_cons c cs hc]
    by_cases hr : rest = []
    · simp [splitN2, hsf, hr]
    · simp [splitN2, hsf, hr]

/-- Witness for C6 (amended): "5" (no newline) errors naming count 1;
"5\n" (header, empty body) succeeds at the zero value. -/
theorem wsUnmarshal_split_behavior_witness :
    wsUnmarshalFrame ['5'] = some (.error (.countError 1))
      ∧ wsUnmarshalFrame ['5', '\n'] = some (.ok none) :=
  ⟨(wsUnmarshal_split_behavior ['5'] (by decide) (by decide)).2.1 (by decide),
   by
     have h := (wsUnmarshal_split_behavior ['5', '\n'] (by decide)
       (by decide)).2.2 ['5'] [] rfl (by decide)
     simpa using h⟩

/-- C3: decoding the encoding of any subscribe/unsubscribe request
returns the request unchanged; the encoded frame is exactly the decimal
byte length of the JSON body, a newline, and that body (so the declared
length equals the body's byte length by construction); and the encoder
always reports payload-type tag 0.  The JSON layer is modelled for
requests whose strings need no escape sequence, which covers every
value the protocol sends. -/
theorem wsMarshal_roundtrip (r : WsRequest) (h : PlainReq r) :
    wsUnmarshalReq (wsMarshal r).1 = some (.ok (some r))
  ∧ (wsMarshal r).1 = itoa (utf8Len (encWsRequest r)) ++ '\n' :: encWsRequest r
  ∧ (wsMarshal r).2 = 0 := by
  refine ⟨?_, rfl, rfl⟩
  obtain ⟨c, cs, hitoa⟩ :
      ∃ c cs, itoa (utf8Len (encWsRequest r)) = c :: cs := by
    cases hh : itoa (utf8Len (encWsRequest r)) with
    | nil => exact absurd hh (itoa_ne_nil _)
    | cons c cs => exact ⟨c, cs, rfl⟩
  have hcdig := itoa_digits (utf8Len (encWsRequest r)) c
    (hitoa ▸ List.mem_cons_self c cs)
  have hcne : ¬ c = '\x7b' := by
    intro hh
    rw [hh, show ('\x7b').toNat = 123 from rfl] at hcdig
    omega
  have hnl : '\n' ∉ itoa (utf8Len (encWsRequest r)) := by
    intro hm
    have := itoa_digits _ '\n' hm
    rw [show ('\n').toNat = 10 from rfl] at this
    omega
  have hbody_ne : encWsRequest r ≠ [] := by
    have hb : ∃ t, encWsRequest r = '\x7b' :: t := ⟨_, rfl⟩
    obtain ⟨t, ht⟩ := hb
    rw [ht]
    simp
  have hframe_eval :
      wsUnmarshalFrame (itoa (utf8Len (encWsRequest r)) ++ '\n' :: encWsRequest r)
        = some (.ok (some (encWsRequest r))) := by
    rw [hitoa, List.cons_append, wsUnmarshalFrame_cons c _ hcne,
      ← List.cons_append, ← hitoa]
    have hsf := splitFirst_append_sep (encWsRequest r) hnl
    simp [splitN2, hsf, hbody_ne]
  show wsUnmarshalReq
      (itoa (utf8Len (encWsRequest r)) ++ '\n' :: encWsRequest r)
    = some (.ok (some r))
  simp only [wsUnmarshalReq, hframe_eval, parseWsRequest_enc r h]

/-- Witness for C3 at a concrete two-subscription request. -/
theorem wsMarshal_roundtrip_witness :
    PlainReq ⟨some ["interfaces", "system-stats"], none, "abc123"⟩
      ∧ wsUnmarshalReq
          (wsMarshal ⟨some ["interfaces", "system-stats"], none, "abc123"⟩).1
          = some (.ok (some ⟨some ["interfaces", "system-stats"], none, "abc123"⟩))
      ∧ (wsMarshal ⟨some ["interfaces", "system-stats"], none, "abc123"⟩).2 = 0 :=
  ⟨by decide,
   (wsMarshal_roundtrip ⟨some ["interfaces", "system-stats"], none, "abc123"⟩
     (by decide)).1,
   (wsMarshal_roundtrip ⟨some ["interfaces", "system-stats"], none, "abc123"⟩
     (by decide)).2.2⟩

/-- Witness for C4: a concrete non-numeric string in each decoder. -/
theorem stat_decoders_error_on_non_numeric_witness :
    (∃ e, systemStatsUnmarshal ⟨"12x", "1", "2"⟩ = .error e)
  ∧ (∃ e, interfacesUnmarshal [("eth0", { speed := "foo" })] = .error e)
  ∧ (∃ e, dpiStatsUnmarshal
        [("192.168.1.1", [("Web|Other", { rxBytes := "foo" })])] = .error e) :=
  ⟨stat_decoders_error_on_non_numeric.1 ⟨"12x", "1", "2"⟩ (Or.inl (by decide)),
   stat_decoders_error_on_non_numeric.2.1 [("eth0", { speed := "foo" })]
     "eth0" { speed := "foo" } "foo" (by decide) (by decide) (by decide),
   stat_decoders_error_on_non_numeric.2.2
     [("192.168.1.1", [("Web|Other", { rxBytes := "foo" })])]
     "192.168.1.1" [("Web|Other", { rxBytes := "foo" })]
     ("Web|Other", { rxBytes := "foo" })
     (by decide) (by decide) (by decide) (Or.inl (by decide))⟩

end Edgemax
